import Mathlib

/-!
Verification of the rgit core against its specification.

Shallow embedding of the rgit source (src/num.rs, src/objects.rs,
src/index.rs, src/tree.rs, src/rev.rs) in Lean 4.  Rust bytes are
modelled as natural numbers below 256, Rust byte strings as `List Nat`,
Rust `String` as Lean `String` (both are UTF-8 text).  Fallible Rust
code returns `Option`/`Except`; a Rust panic is modelled as a
distinguished error constructor or as `Option.none`, as noted at each
definition.
-/

namespace Rgit

/-! ## src/num.rs : hex and octal codecs -/

/-- src/num.rs `_decode_hex_digit`: decodes one ASCII hex digit byte. -/
def decodeHexDigit (d : Nat) : Option Nat :=
  if 48 ≤ d ∧ d ≤ 57 then some (d - 48)
  else if 97 ≤ d ∧ d ≤ 102 then some (d - 97 + 10)
  else if 65 ≤ d ∧ d ≤ 70 then some (d - 65 + 10)
  else none

/-- src/num.rs `parse_hex`: folds over `chunks_exact(2)`, so a trailing
odd byte is never examined; any error short-circuits to `None`. -/
def parse_hex : List Nat → Option (List Nat)
  | a :: b :: rest => do
    let hi ← decodeHexDigit a
    let lo ← decodeHexDigit b
    let tl ← parse_hex rest
    pure ((hi <<< 4 ||| lo) :: tl)
  | _ => some []

/-- Accumulator loop of src/num.rs `parse_octal`. -/
def parseOctalAux : Nat → List Nat → Option Nat
  | acc, [] => some acc
  | acc, d :: rest =>
    if 48 ≤ d ∧ d ≤ 55 then parseOctalAux (acc * 8 + (d - 48)) rest else none

/-- src/num.rs `parse_octal`: note that the empty byte string parses to 0,
exactly as the Rust loop does. -/
def parse_octal (b : List Nat) : Option Nat := parseOctalAux 0 b

/-! ## src/objects.rs : the Id type -/

/-- src/objects.rs `Id`: a 20-byte value (`[u8; 20]`); we carry the bytes
as a list, the length invariant appears in well-formedness hypotheses. -/
structure Id where
  bytes : List Nat
deriving DecidableEq, Repr

/-- src/objects.rs `Id::from` (named `fromHex` here because `from` is a
Lean keyword): hex-decode, then require exactly 20 decoded bytes. -/
def Id.fromHex (s : List Nat) : Option Id :=
  match parse_hex s with
  | none => none
  | some decoded => if decoded.length = 20 then some ⟨decoded⟩ else none

/-- A byte that `_decode_hex_digit` accepts. -/
def isHexByte (d : Nat) : Bool := (decodeHexDigit d).isSome

/-- The all-zero Id (hex form: 40 '0' characters). -/
def zeroId : Id := ⟨List.replicate 20 0⟩

/-! ### Characterization of `Id::from` -/

theorem twoStepInduction {P : List Nat → Prop} (h0 : P []) (h1 : ∀ a, P [a])
    (h2 : ∀ a b rest, P rest → P (a :: b :: rest)) : ∀ s, P s
  | [] => h0
  | [a] => h1 a
  | a :: b :: rest => h2 a b rest (twoStepInduction h0 h1 h2 rest)

theorem parse_hex_length : ∀ s d, parse_hex s = some d → d.length = s.length / 2 := by
  intro s
  induction s using twoStepInduction with
  | h0 => intro d h; simp [parse_hex] at h; subst h; simp
  | h1 a => intro d h; simp [parse_hex] at h; subst h; simp
  | h2 a b rest ih =>
    intro d h
    simp only [parse_hex, bind, Option.bind] at h
    cases ha : decodeHexDigit a with
    | none => rw [ha] at h; simp at h
    | some hi =>
      rw [ha] at h
      cases hb : decodeHexDigit b with
      | none => rw [hb] at h; simp at h
      | some lo =>
        rw [hb] at h
        cases ht : parse_hex rest with
        | none => rw [ht] at h; simp at h
        | some tl =>
          rw [ht] at h
          simp only [Option.some.injEq, pure] at h
          have := ih tl ht
          subst h
          simp only [List.length_cons, this]
          omega

theorem parse_hex_isSome :
    ∀ s : List Nat,
      (parse_hex s).isSome = true ↔ (s.take (2 * (s.length / 2))).all isHexByte = true := by
  intro s
  induction s using twoStepInduction with
  | h0 => simp [parse_hex]
  | h1 a => simp [parse_hex]
  | h2 a b rest ih =>
    have hlen : 2 * ((a :: b :: rest).length / 2) = 2 * (rest.length / 2) + 2 := by
      simp only [List.length_cons]; omega
    rw [hlen]
    simp only [parse_hex, bind, Option.bind]
    constructor
    · intro h
      cases ha : decodeHexDigit a with
      | none => rw [ha] at h; simp at h
      | some hi =>
        rw [ha] at h
        cases hb : decodeHexDigit b with
        | none => rw [hb] at h; simp at h
        | some lo =>
          rw [hb] at h
          cases ht : parse_hex rest with
          | none => rw [ht] at h; simp at h
          | some tl =>
            have hrest : (parse_hex rest).isSome = true := by rw [ht]; rfl
            have := ih.mp hrest
            simp only [List.take_succ_cons, List.all_cons, this, Bool.and_true,
              isHexByte, ha, hb, Option.isSome_some, Bool.and_self]
    · intro h
      simp only [List.take_succ_cons, List.all_cons, Bool.and_eq_true] at h
      obtain ⟨ha', hb', hrest'⟩ := h
      simp only [isHexByte, Option.isSome_iff_exists] at ha' hb'
      obtain ⟨hi, ha⟩ := ha'
      obtain ⟨lo, hb⟩ := hb'
      rw [ha, hb]
      have := ih.mpr hrest'
      cases ht : parse_hex rest with
      | none => rw [ht] at this; simp at this
      | some tl => simp [pure]

theorem idFromHex_isSome (s : List Nat) :
    (Id.fromHex s).isSome = true ↔ (parse_hex s).isSome = true ∧ s.length / 2 = 20 := by
  unfold Id.fromHex
  cases h : parse_hex s with
  | none => simp
  | some d =>
    have hl := parse_hex_length s d h
    by_cases h20 : d.length = 20
    · simp only [h20, if_true, Option.isSome_some, true_iff, true_and]
      omega
    · simp only [h20, if_false]
      constructor
      · intro hh; simp at hh
      · rintro ⟨-, hlen⟩; exact absurd (hl.trans hlen) h20

theorem idFromHex_accepts_40_41 (s : List Nat) :
    (Id.fromHex s).isSome = true ↔
      ((s.length = 40 ∨ s.length = 41) ∧ (s.take 40).all isHexByte = true) := by
  rw [idFromHex_isSome, parse_hex_isSome]
  constructor
  · rintro ⟨hall, hlen⟩
    have h40 : 2 * (s.length / 2) = 40 := by omega
    rw [h40] at hall
    exact ⟨by omega, hall⟩
  · rintro ⟨hlen, hall⟩
    have h40 : 2 * (s.length / 2) = 40 := by rcases hlen with h | h <;> omega
    rw [h40]
    exact ⟨hall, by rcases hlen with h | h <;> omega⟩

/-- C3 (amended): `Id::from` succeeds exactly when the input is 40 **or 41**
bytes long and its first 40 bytes are hex digits: `chunks_exact(2)` silently
drops a trailing 41st byte, which therefore may even be a non-hex byte. -/
theorem c3_id_from_accepts_41 (s : List Nat) :
    (Id.fromHex s).isSome = true ↔
      ((s.length = 40 ∨ s.length = 41) ∧ (s.take 40).all isHexByte = true) :=
  idFromHex_accepts_40_41 s

/-- C3 (counterexample): a 41-character hex string — 41 ASCII '0' bytes —
is accepted by `Id::from` (producing the zero Id), although the claim
says every input that is not exactly 40 hex digits is rejected. -/
theorem c3_counterexample : Id.fromHex (List.replicate 41 48) = some zeroId := by
  decide

/-! ## src/index.rs : stat comparison (`UnixStat::eq`, `StatInfo`) -/

/-- src/index.rs `UnixStat` (the `Default` is all-zero / non-executable). -/
structure UnixStat where
  dev : Nat
  ino : Nat
  uid : Nat
  gid : Nat
  executable : Bool
deriving DecidableEq, Repr

/-- src/index.rs `impl PartialEq for UnixStat`, clause for clause, in
source order; the build is for a Unix target, so the `cfg!` disjunct of
the executable clause is `false` and the executable bits are compared. -/
def UnixStat.beq (self other : UnixStat) : Bool :=
  (self.dev == 0 || self.dev == other.dev)
    && (self.gid == 0 || other.gid == 0 || self.gid == other.gid)
    && (self.uid == 0 || other.uid == 0 || self.uid == other.uid)
    && (self.ino == 0 || other.ino == 0 || self.ino == other.ino)
    && (self.dev == 0 || other.dev == 0 || self.dev == other.dev)
    && (self.executable == other.executable)

/-- src/index.rs `StatInfo`. -/
structure StatInfo where
  ctime : Nat × Nat
  mtime : Nat × Nat
  size : Nat
  unix_stat : UnixStat
deriving Repr

/-- Derived `PartialEq` on `StatInfo`: field-by-field comparison in
declaration order, using `UnixStat.beq` for the `unix_stat` field. -/
def StatInfo.beq (a b : StatInfo) : Bool :=
  a.ctime == b.ctime && a.mtime == b.mtime && a.size == b.size
    && UnixStat.beq a.unix_stat b.unix_stat

/-- A stat tuple whose `dev` is 1 and everything else zero. -/
def statDevOne : StatInfo := ⟨(0, 0), (0, 0), 0, ⟨1, 0, 0, 0, false⟩⟩

/-- A stat tuple that is entirely zero. -/
def statAllZero : StatInfo := ⟨(0, 0), (0, 0), 0, ⟨0, 0, 0, 0, false⟩⟩

/-- C5: the stray first clause `self.dev == 0 || self.dev == other.dev` of
`UnixStat::eq` ignores a zero `dev` only on the left-hand side, so a
recorded `dev` compared against an unrecorded (zero) one yields `false`
even though the claim says a zero on either side excludes the field; the
comparison is not symmetric. -/
theorem c5_stat_eq_dev_asymmetric :
    StatInfo.beq statDevOne statAllZero = false ∧
      StatInfo.beq statAllZero statDevOne = true := by
  decide

/-! ## UTF-8 codec

Rust `str`/`String` values are UTF-8 byte strings.  Where the source
moves between `String` and `[u8]` (`as_bytes`, `str::from_utf8`) we use
the following standard UTF-8 encoder/decoder; the decoder performs the
same validation as `str::from_utf8` (continuation bytes, overlong forms
and surrogates rejected). -/

/-- UTF-8 bytes of one scalar value. -/
def charUtf8 (c : Char) : List Nat :=
  let n := c.toNat
  if n < 0x80 then [n]
  else if n < 0x800 then [0xC0 ||| (n >>> 6), 0x80 ||| (n &&& 0x3F)]
  else if n < 0x10000 then
    [0xE0 ||| (n >>> 12), 0x80 ||| ((n >>> 6) &&& 0x3F), 0x80 ||| (n &&& 0x3F)]
  else
    [0xF0 ||| (n >>> 18), 0x80 ||| ((n >>> 12) &&& 0x3F),
      0x80 ||| ((n >>> 6) &&& 0x3F), 0x80 ||| (n &&& 0x3F)]

/-- UTF-8 encoding of a character sequence (Rust `str::as_bytes`). -/
def utf8Encode (cs : List Char) : List Nat := (cs.map charUtf8).flatten

/-- A UTF-8 continuation byte. -/
def isCont (b : Nat) : Bool := 0x80 ≤ b && b ≤ 0xBF

/-- UTF-8 decoding with full validation (Rust `str::from_utf8`). -/
def utf8Decode : List Nat → Option (List Char)
  | [] => some []
  | b :: rest =>
    if b ≤ 0x7F then (utf8Decode rest).map (Char.ofNat b :: ·)
    else if 0xC2 ≤ b ∧ b ≤ 0xDF then
      match rest with
      | b1 :: rest' =>
        if isCont b1 then
          (utf8Decode rest').map (Char.ofNat (((b - 0xC0) <<< 6) ||| (b1 - 0x80)) :: ·)
        else none
      | _ => none
    else if 0xE0 ≤ b ∧ b ≤ 0xEF then
      match rest with
      | b1 :: b2 :: rest' =>
        let okB1 : Bool :=
          if b = 0xE0 then 0xA0 ≤ b1 && b1 ≤ 0xBF
          else if b = 0xED then 0x80 ≤ b1 && b1 ≤ 0x9F
          else isCont b1
        if okB1 && isCont b2 then
          (utf8Decode rest').map
            (Char.ofNat (((b - 0xE0) <<< 12) ||| ((b1 - 0x80) <<< 6) ||| (b2 - 0x80)) :: ·)
        else none
      | _ => none
    else if 0xF0 ≤ b ∧ b ≤ 0xF4 then
      match rest with
      | b1 :: b2 :: b3 :: rest' =>
        let okB1 : Bool :=
          if b = 0xF0 then 0x90 ≤ b1 && b1 ≤ 0xBF
          else if b = 0xF4 then 0x80 ≤ b1 && b1 ≤ 0x8F
          else isCont b1
        if okB1 && isCont b2 && isCont b3 then
          (utf8Decode rest').map
            (Char.ofNat (((b - 0xF0) <<< 18) ||| ((b1 - 0x80) <<< 12) |||
              ((b2 - 0x80) <<< 6) ||| (b3 - 0x80)) :: ·)
        else none
      | _ => none
    else none

/-! ## src/tree.rs : the tree composer -/

/-- src/tree.rs `TreeEntry`; a `SubTree` (`BTreeMap<String, TreeEntry>`)
is embedded as an association list kept sorted ascending on the key, which
is exactly the iteration order of the `BTreeMap`. -/
inductive TreeEntry where
  | blob (id : Id)
  | tree (id : Id)
  | subTree (st : List (String × TreeEntry))

/-- src/tree.rs `SubTree`. -/
abbrev SubTree := List (String × TreeEntry)

/-- src/tree.rs `TreeEntry::subtree` (and `subtree_mut`). -/
def TreeEntry.subtree : TreeEntry → Option SubTree
  | .subTree st => some st
  | _ => none

/-- src/tree.rs `TreeEntry::perms`; `none` models the `unreachable!`
panic on an unflattened subtree. -/
def TreeEntry.perms : TreeEntry → Option (Id × Nat)
  | .blob id => some (id, 0o100644)
  | .tree id => some (id, 0o040000)
  | .subTree _ => none

/-- src/objects.rs `File`: one entry of a stored Tree object. -/
structure File where
  mode : Nat
  name : String
  id : Id
deriving DecidableEq, Repr

/-- src/objects.rs `File::is_dir`. -/
def File.is_dir (f : File) : Bool :=
  (f.mode >>> 9) &&& ((1 <<< 9) - 1) == 0o040

/-- Strict order on character sequences; on Unicode scalar sequences the
code-point order equals UTF-8 byte order, so this is exactly the `Ord`
on Rust `String` that `BTreeMap<String, _>` sorts by. -/
def charsLt : List Char → List Char → Bool
  | [], [] => false
  | [], _ :: _ => true
  | _ :: _, [] => false
  | a :: as, b :: bs =>
    if a.toNat < b.toNat then true
    else if a = b then charsLt as bs else false

/-- The `BTreeMap<String, _>` key order. -/
def strLtB (a b : String) : Bool := charsLt a.data b.data

/-- Rust `BTreeMap::insert`: insert sorted by key, replacing an equal key. -/
def stInsert : SubTree → String → TreeEntry → SubTree
  | [], k, v => [(k, v)]
  | (k', v') :: rest, k, v =>
    if strLtB k k' then (k, v) :: (k', v') :: rest
    else if k = k' then (k, v) :: rest
    else (k', v') :: stInsert rest k v

/-- Rust `BTreeMap::get`. -/
def stLookup : SubTree → String → Option TreeEntry
  | [], _ => none
  | (k', v') :: rest, k => if k = k' then some v' else stLookup rest k

/-- src/tree.rs `save_subtree_to_disk`: emit the `File` list of the Tree
object in `BTreeMap` iteration order (ascending raw key).  `none` models
the panic reached through `perms` when the subtree is not flat; the
actual hashing and storing of the emitted Tree is the repository layer
and does not affect what this function contributes to entry order. -/
def save_subtree_to_disk (st : SubTree) : Option (List File) :=
  st.mapM fun e => (e.2.perms).map fun p => { mode := p.2, name := e.1, id := p.1 }

/-- Rust `str::split('/')` (`"".split('/')` gives `[""]`, `"a//b"` gives
`["a", "", "b"]`). -/
def splitCharsAux : List Char → List Char → List String
  | [], acc => [String.mk acc.reverse]
  | c :: rest, acc =>
    if c = '/' then String.mk acc.reverse :: splitCharsAux rest []
    else splitCharsAux rest (c :: acc)

/-- Split a path on forward slashes. -/
def splitSlash (s : String) : List String := splitCharsAux s.data []

/-- The body of the loop of src/tree.rs `index_to_tree` for one index
entry: walk/create `SubTree` nodes along the parent components, then
insert a Blob at the filename.  `none` models the
`.expect("component was not a directory?!")` panic when a parent
component position holds a Blob or Tree.  The final insert is a plain
`BTreeMap::insert` and replaces whatever the filename position held. -/
def insertPath : SubTree → List String → Id → Option SubTree
  | _, [], _ => none
  | st, [filename], id => some (stInsert st filename (.blob id))
  | st, part :: p2 :: rest, id =>
    let child := match stLookup st part with
      | some e => e
      | none => .subTree []
    match child.subtree with
    | none => none
    | some sub =>
      match insertPath sub (p2 :: rest) id with
      | none => none
      | some sub' => some (stInsert st part (.subTree sub'))

/-- src/tree.rs `index_to_tree`; an index entry contributes its `name`
path (split on `/`) and its `meta.id`, which are the only fields read. -/
def index_to_tree (entries : List (String × Id)) : Option SubTree :=
  entries.foldlM (fun st e => insertPath st (splitSlash e.1) e.2) []

/-- Modelled from the spec (§4.1): canonical Git tree-entry sort key —
the name bytes with a trailing `/` appended for directory entries. -/
def canonicalKey (f : File) : List Nat :=
  utf8Encode f.name.data ++ (if f.is_dir then [47] else [])

/-- Strict byte-wise lexicographic order on byte strings. -/
def bytesLt : List Nat → List Nat → Bool
  | [], [] => false
  | [], _ :: _ => true
  | _ :: _, [] => false
  | a :: as, b :: bs => if a < b then true else if a = b then bytesLt as bs else false

/-- A flat subtree holding a directory `a` and a file `a.c`, as the
`BTreeMap` stores it (sorted ascending on the raw key). -/
def c1Input : SubTree := [("a", .tree zeroId), ("a.c", .blob zeroId)]

/-- C1: `save_subtree_to_disk` iterates the `BTreeMap` in raw-name byte
order, emitting the directory `a` before the file `a.c`, although the
canonical Git sort key of `a.c` (no suffix) is strictly below that of the
directory `a` (suffix `/`): the composer does exactly the plain byte-wise
sort on the raw name that the claim rules out. -/
theorem c1_tree_order_not_canonical :
    save_subtree_to_disk c1Input =
      some [{ mode := 0o040000, name := "a", id := zeroId },
            { mode := 0o100644, name := "a.c", id := zeroId }] ∧
      bytesLt (canonicalKey { mode := 0o100644, name := "a.c", id := zeroId })
        (canonicalKey { mode := 0o040000, name := "a", id := zeroId }) = true := by
  constructor
  · rfl
  · rfl

/-- A second distinct Id for counterexamples. -/
def oneId : Id := ⟨List.replicate 20 1⟩

/-- C8 (counterexample): inserting the file `a` where the unpersisted
subtree for directory `a` (created by the earlier entry `a/b`) already
lives is not an error: the `BTreeMap::insert` at the filename position
silently replaces the whole directory with the Blob. -/
theorem c8_counterexample :
    index_to_tree [("a/b", zeroId), ("a", oneId)] =
      some [("a", TreeEntry.blob oneId)] := by
  rfl

/-- C8 (amended): at the final filename component `index_to_tree`
replaces whatever node exists — including an unpersisted SubTree, which
is silently discarded rather than reported as an error; the panic
(modelled by `none`) occurs in the opposite situation, when a *parent*
component position already holds a Blob or Tree leaf. -/
theorem c8_insert_replaces (id1 id2 : Id) :
    index_to_tree [("a/b", id1), ("a", id2)] = some [("a", TreeEntry.blob id2)] ∧
      index_to_tree [("a", id1), ("a/b", id2)] = none := by
  constructor
  · rfl
  · rfl

/-! ## src/objects.rs : `Tree::load` -/

/-- The failure modes of src/objects.rs `Tree::load`, one per `context`
message, plus `panicSliceOob` for the unguarded `&rest[..20]` slice,
which in the source is a panic rather than an error, and `fuel` (an
artifact of the embedding, unreachable for fuel ≥ input length). -/
inductive TreeErr where
  | corruptMode
  | corruptStructure
  | nameNotUtf8
  | panicSliceOob
  | fuel
deriving DecidableEq, Repr

/-- Rust `slice::splitn(2, pred)`: the bytes before the first separator,
and (when a separator exists) the bytes after it. -/
def splitn2 (sep : Nat) : List Nat → List Nat × Option (List Nat)
  | [] => ([], none)
  | b :: rest =>
    if b = sep then ([], some rest)
    else
      let r := splitn2 sep rest
      (b :: r.1, r.2)

/-- The `while rest.len() > 0` loop of src/objects.rs `Tree::load`,
with fuel (each iteration consumes at least one byte, so fuel = input
length is enough).  Field order follows the source: mode, then the space,
then the name and NUL, then the 20 hash bytes — sliced *before* the
name's UTF-8 validation. -/
def treeLoadAux : Nat → List Nat → Except TreeErr (List File)
  | _, [] => .ok []
  | 0, _ :: _ => .error .fuel
  | fuel + 1, rest =>
    let s1 := splitn2 32 rest
    match parse_octal s1.1 with
    | none => .error .corruptMode
    | some mode =>
      match s1.2 with
      | none => .error .corruptStructure
      | some rest2 =>
        let s2 := splitn2 0 rest2
        match s2.2 with
        | none => .error .corruptStructure
        | some rest3 =>
          if rest3.length < 20 then .error .panicSliceOob
          else
            match utf8Decode s2.1 with
            | none => .error .nameNotUtf8
            | some chars =>
              match treeLoadAux fuel (rest3.drop 20) with
              | .error e => .error e
              | .ok files =>
                .ok ({ mode := mode, name := String.mk chars, id := ⟨rest3.take 20⟩ } :: files)

/-- src/objects.rs `Tree::load`. -/
def Tree.load (content : List Nat) : Except TreeErr (List File) :=
  treeLoadAux content.length content

/-- C9: decoding the truncated tree payload `100644 a\x00` — a record cut
off right after the name's NUL terminator, with zero of the 20 required
hash bytes — reaches the unguarded slice `&rest[..20]` and panics
(`panicSliceOob`) instead of returning a decode error. -/
theorem c9_truncated_tree_panics :
    Tree.load [49, 48, 48, 54, 52, 52, 32, 97, 0] =
      Except.error TreeErr.panicSliceOob := by
  rfl

/-! ## SHA-1

`write_to_file` seals the index with a SHA-1 trailer; this is a direct
implementation of FIPS 180 SHA-1 over byte lists (32-bit words as
naturals reduced mod 2^32). -/

/-- Truncation to 32 bits. -/
def u32of (n : Nat) : Nat := n % 4294967296

/-- Left rotation of a 32-bit value (argument below 2^32). -/
def rotl (s x : Nat) : Nat := u32of ((x <<< s) ||| (x >>> (32 - s)))

/-- Big-endian bytes of a 32-bit value. -/
def be32 (n : Nat) : List Nat := [n / 2 ^ 24 % 256, n / 2 ^ 16 % 256, n / 2 ^ 8 % 256, n % 256]

/-- Big-endian bytes of a 16-bit value. -/
def be16 (n : Nat) : List Nat := [n / 256 % 256, n % 256]

/-- Big-endian bytes of a 64-bit value. -/
def be64 (n : Nat) : List Nat :=
  [n / 2 ^ 56 % 256, n / 2 ^ 48 % 256, n / 2 ^ 40 % 256, n / 2 ^ 32 % 256,
    n / 2 ^ 24 % 256, n / 2 ^ 16 % 256, n / 2 ^ 8 % 256, n % 256]

/-- SHA-1 message padding. -/
def sha1Pad (msg : List Nat) : List Nat :=
  msg ++ 128 :: (List.replicate ((119 - msg.length % 64) % 64) 0 ++ be64 (8 * msg.length))

/-- Big-endian 32-bit words of a byte list. -/
def bytesToWords : List Nat → List Nat
  | b0 :: b1 :: b2 :: b3 :: rest => (((b0 * 256 + b1) * 256 + b2) * 256 + b3) :: bytesToWords rest
  | _ => []

/-- SHA-1 message-schedule extension (accumulator reversed, newest first). -/
def extendWordsAux : Nat → List Nat → List Nat
  | 0, acc => acc
  | k + 1, acc =>
    extendWordsAux k (rotl 1 (acc.getD 2 0 ^^^ acc.getD 7 0 ^^^ acc.getD 13 0 ^^^ acc.getD 15 0) :: acc)

/-- SHA-1 round function. -/
def sha1F (t b c d : Nat) : Nat :=
  if t < 20 then (b &&& c) ||| ((b ^^^ 4294967295) &&& d)
  else if t < 40 then b ^^^ c ^^^ d
  else if t < 60 then (b &&& c) ||| (b &&& d) ||| (c &&& d)
  else b ^^^ c ^^^ d

/-- SHA-1 round constants. -/
def sha1K (t : Nat) : Nat :=
  if t < 20 then 0x5A827999 else if t < 40 then 0x6ED9EBA1
  else if t < 60 then 0x8F1BBCDC else 0xCA62C1D6

/-- The 80 SHA-1 rounds over the extended schedule. -/
def sha1Rounds : Nat → List Nat → Nat × Nat × Nat × Nat × Nat → Nat × Nat × Nat × Nat × Nat
  | _, [], st => st
  | t, w :: ws, (a, b, c, d, e) =>
    sha1Rounds (t + 1) ws (u32of (rotl 5 a + sha1F t b c d + e + sha1K t + w), a, rotl 30 b, c, d)

/-- Compression of the given number of 64-byte blocks. -/
def sha1Blocks : Nat → List Nat → Nat × Nat × Nat × Nat × Nat → Nat × Nat × Nat × Nat × Nat
  | 0, _, h => h
  | k + 1, bytes, (h0, h1, h2, h3, h4) =>
    let ws := (extendWordsAux 64 (bytesToWords (bytes.take 64)).reverse).reverse
    let r := sha1Rounds 0 ws (h0, h1, h2, h3, h4)
    sha1Blocks k (bytes.drop 64)
      (u32of (h0 + r.1), u32of (h1 + r.2.1), u32of (h2 + r.2.2.1),
        u32of (h3 + r.2.2.2.1), u32of (h4 + r.2.2.2.2))

/-- SHA-1 digest (20 bytes) of a byte list. -/
def sha1 (msg : List Nat) : List Nat :=
  let padded := sha1Pad msg
  let r := sha1Blocks (padded.length / 64) padded
    (0x67452301, 0xEFCDAB89, 0x98BADCFE, 0x10325476, 0xC3D2E1F0)
  be32 r.1 ++ be32 r.2.1 ++ be32 r.2.2.1 ++ be32 r.2.2.2.1 ++ be32 r.2.2.2.2

/-! ## src/index.rs : the index codec -/

/-- src/index.rs `IndexMeta`, fields in declaration order.  The Rust
fields are big-endian byte arrays (`u32be`/`u16be`); we carry the numeric
values (bounds are well-formedness hypotheses) and serialize explicitly. -/
structure IndexMeta where
  ctime : Nat
  ctime_ns : Nat
  mtime : Nat
  mtime_ns : Nat
  dev : Nat
  ino : Nat
  mode : Nat
  uid : Nat
  gid : Nat
  size : Nat
  id : Id
  flags : Nat
deriving DecidableEq, Repr

/-- src/index.rs `IndexEntry`; `name` is the UTF-8 byte content of the
Rust `String`. -/
structure IndexEntry where
  name : List Nat
  meta : IndexMeta
deriving DecidableEq, Repr

/-- Rust `Safecast::cast` of an `IndexMeta`: its 62-byte on-disk record. -/
def IndexMeta.cast (m : IndexMeta) : List Nat :=
  be32 m.ctime ++ (be32 m.ctime_ns ++ (be32 m.mtime ++ (be32 m.mtime_ns ++
    (be32 m.dev ++ (be32 m.ino ++ (be32 m.mode ++ (be32 m.uid ++
      (be32 m.gid ++ (be32 m.size ++ (m.id.bytes ++ be16 m.flags))))))))))

/-- src/index.rs `name_record_size`: bytes the name record (name plus NUL
padding) occupies; `mem::size_of::<IndexMeta>()` is 62. -/
def name_record_size (L : Nat) : Nat := (62 + L) + (8 - (62 + L) % 8) - 62

/-- One entry as written by `write_to_file`: the 62-byte record, the name
bytes, then NUL padding up to `name_record_size`. -/
def encodeEntry (e : IndexEntry) : List Nat :=
  e.meta.cast ++ (e.name ++ List.replicate (name_record_size e.name.length - e.name.length) 0)

/-- The 12-byte header: signature `DIRC`, version 2, entry count
(`index.len() as u32`, hence the truncation). -/
def castHeader (n : Nat) : List Nat :=
  [68, 73, 82, 67] ++ (be32 2 ++ be32 (n % 2 ^ 32))

/-- src/index.rs `write_to_file`: header, records, and the SHA-1 of all
preceding bytes as trailer. -/
def write_to_file (idx : List IndexEntry) : List Nat :=
  (castHeader idx.length ++ (idx.map encodeEntry).flatten) ++
    sha1 (castHeader idx.length ++ (idx.map encodeEntry).flatten)

/-- Failure modes of src/index.rs `parse`: `badMagic` and
`unsupportedVersion` as in `IndexError`; `ioError` for a failing
`read_exact`; `unsupportedNameLen` models the `unimplemented!` panic on
a 0xFFF name-length marker; `nameNotUtf8` the `from_utf8` failure. -/
inductive IndexError where
  | badMagic
  | unsupportedVersion (v : Nat)
  | unsupportedNameLen
  | ioError
  | nameNotUtf8
deriving DecidableEq, Repr

/-- Big-endian u32 from the first four bytes. -/
def readU32 : List Nat → Nat
  | b0 :: b1 :: b2 :: b3 :: _ => ((b0 * 256 + b1) * 256 + b2) * 256 + b3
  | _ => 0

/-- Big-endian u16 from the first two bytes. -/
def readU16 : List Nat → Nat
  | b0 :: b1 :: _ => b0 * 256 + b1
  | _ => 0

/-- Rust `buf.cast::<IndexMeta>()` on a 62-byte record: positional reading of
the ten big-endian u32 fields, the 20 id bytes, and the u16 flags.  The
fallback is unreachable: the caller `read_exact`s 62 bytes first. -/
def parseMeta (b : List Nat) : IndexMeta :=
  match b with
  | a0 :: a1 :: a2 :: a3 :: b0 :: b1 :: b2 :: b3 :: c0 :: c1 :: c2 :: c3 ::
    d0 :: d1 :: d2 :: d3 :: e0 :: e1 :: e2 :: e3 :: f0 :: f1 :: f2 :: f3 ::
    g0 :: g1 :: g2 :: g3 :: h0 :: h1 :: h2 :: h3 :: i0 :: i1 :: i2 :: i3 ::
    j0 :: j1 :: j2 :: j3 :: rest =>
    { ctime := readU32 [a0, a1, a2, a3], ctime_ns := readU32 [b0, b1, b2, b3]
      mtime := readU32 [c0, c1, c2, c3], mtime_ns := readU32 [d0, d1, d2, d3]
      dev := readU32 [e0, e1, e2, e3], ino := readU32 [f0, f1, f2, f3]
      mode := readU32 [g0, g1, g2, g3], uid := readU32 [h0, h1, h2, h3]
      gid := readU32 [i0, i1, i2, i3], size := readU32 [j0, j1, j2, j3]
      id := ⟨rest.take 20⟩, flags := readU16 (rest.drop 20) }
  | _ =>
    { ctime := 0, ctime_ns := 0, mtime := 0, mtime_ns := 0, dev := 0, ino := 0
      mode := 0, uid := 0, gid := 0, size := 0, id := ⟨[]⟩, flags := 0 }

/-- The entry-reading loop of src/index.rs `parse`: read the 62-byte
record, take the name length from the low 12 bits of `flags`, read the
padded name record, keep the first `name_length` bytes as the name.  No
ordering or duplicate check is performed. -/
def parseEntries : Nat → List Nat → Except IndexError (List IndexEntry)
  | 0, _ => .ok []
  | n + 1, b =>
    if 62 ≤ b.length then
      let meta := parseMeta (b.take 62)
      let nameLength := meta.flags &&& 0xfff
      if nameLength = 0xfff then .error .unsupportedNameLen
      else
        let recordSz := name_record_size nameLength
        let rest := b.drop 62
        if recordSz ≤ rest.length then
          let nameBytes := (rest.take recordSz).take nameLength
          if (utf8Decode nameBytes).isSome then
            match parseEntries n (rest.drop recordSz) with
            | .error e => .error e
            | .ok es => .ok (⟨nameBytes, meta⟩ :: es)
          else .error .nameNotUtf8
        else .error .ioError
    else .error .ioError

/-- src/index.rs `parse`: check signature and version, then read exactly
`num_entries` entries; the 20 trailer bytes are never read or verified. -/
def index_parse (b : List Nat) : Except IndexError (List IndexEntry) :=
  if 12 ≤ b.length then
    let hdr := b.take 12
    if hdr.take 4 = [68, 73, 82, 67] then
      let ver := readU32 (hdr.drop 4)
      if ver = 2 then parseEntries (readU32 (hdr.drop 8)) (b.drop 12)
      else .error (.unsupportedVersion ver)
    else .error .badMagic
  else .error .ioError

/-- Typing facts the Rust types give for free (`u32be`/`u16be` fields
are 4/2 bytes, `Id` is 20 bytes). -/
def wfMeta (m : IndexMeta) : Prop :=
  m.ctime < 2 ^ 32 ∧ m.ctime_ns < 2 ^ 32 ∧ m.mtime < 2 ^ 32 ∧ m.mtime_ns < 2 ^ 32 ∧
    m.dev < 2 ^ 32 ∧ m.ino < 2 ^ 32 ∧ m.mode < 2 ^ 32 ∧ m.uid < 2 ^ 32 ∧
    m.gid < 2 ^ 32 ∧ m.size < 2 ^ 32 ∧ m.flags < 2 ^ 16 ∧ m.id.bytes.length = 20

instance (m : IndexMeta) : Decidable (wfMeta m) := by unfold wfMeta; infer_instance

/-- A well-formed entry: well-typed meta, the name is the UTF-8 content
of a Rust `String`, it is shorter than 0xFFF bytes, and the low 12 bits
of `flags` hold its length (the claim's hypotheses). -/
def wfEntry (e : IndexEntry) : Prop :=
  wfMeta e.meta ∧ e.meta.flags &&& 0xfff = e.name.length ∧
    e.name.length < 0xfff ∧ (utf8Decode e.name).isSome = true

instance (e : IndexEntry) : Decidable (wfEntry e) := by unfold wfEntry; infer_instance

/-- Entries strictly sorted ascending by name bytes. -/
def strictlySorted : List IndexEntry → Bool
  | [] => true
  | [_] => true
  | a :: b :: rest => bytesLt a.name b.name && strictlySorted (b :: rest)

/-! ### Round-trip of the index codec -/

theorem readU32_be32 (n : Nat) (h : n < 2 ^ 32) : readU32 (be32 n) = n := by
  simp only [be32, readU32]
  omega

theorem readU16_be16 (n : Nat) (h : n < 2 ^ 16) : readU16 (be16 n) = n := by
  simp only [be16, readU16]
  omega

theorem cast_length (m : IndexMeta) (hm : wfMeta m) : m.cast.length = 62 := by
  obtain ⟨-, -, -, -, -, -, -, -, -, -, -, hid⟩ := hm
  simp [IndexMeta.cast, be32, be16, hid]

theorem parseMeta_cast (m : IndexMeta) (hm : wfMeta m) : parseMeta m.cast = m := by
  obtain ⟨h1, h2, h3, h4, h5, h6, h7, h8, h9, h10, h11, hid⟩ := hm
  simp only [IndexMeta.cast, be32, be16, List.cons_append, List.nil_append, parseMeta]
  have htake : (m.id.bytes ++ [m.flags / 256 % 256, m.flags % 256]).take 20 = m.id.bytes :=
    List.take_left' hid
  have hdrop : (m.id.bytes ++ [m.flags / 256 % 256, m.flags % 256]).drop 20 =
      [m.flags / 256 % 256, m.flags % 256] :=
    List.drop_left' hid
  simp only [htake, hdrop, readU32, readU16]
  cases m
  simp only [IndexMeta.mk.injEq]
  refine ⟨?_, ?_, ?_, ?_, ?_, ?_, ?_, ?_, ?_, ?_, trivial, ?_⟩ <;> simp_all <;> omega

theorem name_record_size_ge (L : Nat) : L + 1 ≤ name_record_size L := by
  unfold name_record_size
  have := Nat.mod_lt (62 + L) (y := 8) (by omega)
  omega

theorem encodeEntry_parts_length (e : IndexEntry) (_he : wfEntry e) :
    (e.name ++ List.replicate (name_record_size e.name.length - e.name.length) 0).length =
      name_record_size e.name.length := by
  have := name_record_size_ge e.name.length
  simp [List.length_append]
  omega

theorem encodeEntry_length (e : IndexEntry) (he : wfEntry e) :
    (encodeEntry e).length = 62 + name_record_size e.name.length := by
  simp [encodeEntry, cast_length e.meta he.1, encodeEntry_parts_length e he]

theorem parseEntries_step (e : IndexEntry) (n : Nat) (b : List Nat) (he : wfEntry e) :
    parseEntries (n + 1) (encodeEntry e ++ b) =
      match parseEntries n b with
      | .error err => .error err
      | .ok es => .ok (e :: es) := by
  obtain ⟨hm, hfl, hlen, hutf⟩ := he
  have hcast : e.meta.cast.length = 62 := cast_length e.meta hm
  have hparts := encodeEntry_parts_length e ⟨hm, hfl, hlen, hutf⟩
  have hlen62 : 62 ≤ (encodeEntry e ++ b).length := by
    simp [encodeEntry, List.length_append, hcast]
  have htake62 : (encodeEntry e ++ b).take 62 = e.meta.cast := by
    rw [encodeEntry, List.append_assoc, List.take_left' hcast]
  have hdrop62 : (encodeEntry e ++ b).drop 62 =
      (e.name ++ List.replicate (name_record_size e.name.length - e.name.length) 0) ++ b := by
    rw [encodeEntry, List.append_assoc, List.drop_left' hcast]
  rw [parseEntries, if_pos hlen62, htake62, parseMeta_cast e.meta hm]
  simp only [hfl]
  rw [if_neg (by omega)]
  rw [hdrop62]
  have hreclen : name_record_size e.name.length ≤
      ((e.name ++ List.replicate (name_record_size e.name.length - e.name.length) 0) ++ b).length := by
    simp only [List.length_append, hparts]
    omega
  rw [if_pos hreclen, List.take_left' hparts, List.take_left' rfl, List.drop_left' hparts]
  rw [if_pos hutf]

theorem parseEntries_encode (es : List IndexEntry) (r : List Nat)
    (hwf : ∀ e ∈ es, wfEntry e) :
    parseEntries es.length ((es.map encodeEntry).flatten ++ r) = .ok es := by
  induction es with
  | nil => simp [parseEntries]
  | cons e tl ih =>
    have he : wfEntry e := hwf e (by simp)
    have htl : ∀ x ∈ tl, wfEntry x := fun x hx => hwf x (by simp [hx])
    simp only [List.map_cons, List.flatten_cons, List.length_cons, List.append_assoc]
    rw [parseEntries_step e tl.length _ he, ih htl]

theorem castHeader_length (n : Nat) : (castHeader n).length = 12 := by
  simp [castHeader, be32]

theorem readU32_be32_append (n : Nat) (h : n < 2 ^ 32) (l : List Nat) :
    readU32 (be32 n ++ l) = n := by
  simp only [be32, List.cons_append, readU32]
  omega

theorem index_parse_header (n : Nat) (rest : List Nat) :
    index_parse (castHeader n ++ rest) = parseEntries (n % 2 ^ 32) rest := by
  have h12 : (castHeader n).length = 12 := castHeader_length n
  have htake : (castHeader n ++ rest).take 12 = castHeader n := List.take_left' h12
  have hdrop : (castHeader n ++ rest).drop 12 = rest := List.drop_left' h12
  have hge : 12 ≤ (castHeader n ++ rest).length := by simp [List.length_append, h12]
  have htake4 : (castHeader n).take 4 = [68, 73, 82, 67] := by
    rw [castHeader]; exact List.take_left' rfl
  have hdrop4 : (castHeader n).drop 4 = be32 2 ++ be32 (n % 2 ^ 32) := by
    rw [castHeader]; exact List.drop_left' rfl
  have hver : readU32 ((castHeader n).drop 4) = 2 := by
    rw [hdrop4]; exact readU32_be32_append 2 (by norm_num) _
  have hdrop8 : (castHeader n).drop 8 = be32 (n % 2 ^ 32) := by
    have : (castHeader n).drop 8 = ((castHeader n).drop 4).drop 4 := by
      rw [List.drop_drop]
    rw [this, hdrop4]
    exact List.drop_left' (by simp [be32])
  have hcnt : readU32 ((castHeader n).drop 8) = n % 2 ^ 32 := by
    rw [hdrop8, readU32_be32]
    exact Nat.mod_lt _ (by norm_num)
  simp only [index_parse, htake, hdrop, htake4, hver, hcnt]
  rw [if_pos hge]
  simp

/-- Round-trip of the index codec: `parse` applied to the byte stream
written for well-formed entries returns exactly those entries in order;
the (unverified) 20-byte SHA-1 trailer is left unread. -/
theorem index_write_parse (idx : List IndexEntry)
    (hwf : ∀ e ∈ idx, wfEntry e) (hcount : idx.length < 2 ^ 32) :
    index_parse (write_to_file idx) = .ok idx := by
  rw [write_to_file, List.append_assoc, index_parse_header,
    Nat.mod_eq_of_lt hcount]
  exact parseEntries_encode idx _ hwf

/-- The `item1` entry of the own `test_index` fixture of the repository. -/
def testIndexMeta1 : IndexMeta :=
  { ctime := 0x5e9bf1c6, ctime_ns := 0x26545c10, mtime := 0x5e9bf1ce, mtime_ns := 0x30640b74
    dev := 0, ino := 0, mode := 0x81a4, uid := 0, gid := 0, size := 8
    id := ⟨[0x07, 0xd4, 0xab, 0xa2, 0x65, 0x4d, 0x6d, 0x44, 0xc2, 0x48,
            0x62, 0x46, 0x7d, 0x86, 0xee, 0x8e, 0xb6, 0x78, 0x40, 0xfe]⟩
    flags := 5 }

/-- The `item2` entry of the own `test_index` fixture of the repository. -/
def testIndexMeta2 : IndexMeta :=
  { ctime := 0x5e9bf1c9, ctime_ns := 0xb204508, mtime := 0x5e9bf1d2, mtime_ns := 0x2ce99284
    dev := 0, ino := 0, mode := 0x81a4, uid := 0, gid := 0, size := 0xc
    id := ⟨[0x0b, 0xfe, 0xb4, 0x8f, 0x6e, 0x41, 0x4e, 0x43, 0x5f, 0xe4,
            0xfb, 0xf1, 0xd8, 0x5d, 0x5a, 0x3a, 0x83, 0xdd, 0x42, 0x51]⟩
    flags := 5 }

/-- The two-entry index of the `test_index` test of the repository
(names `item1` and `item2`). -/
def testIndex : List IndexEntry :=
  [⟨[105, 116, 101, 109, 49], testIndexMeta1⟩, ⟨[105, 116, 101, 109, 50], testIndexMeta2⟩]

/-- C4: for an index of well-formed entries (names shorter than 0xFFF
bytes, low 12 `flags` bits holding the name length, fields within their
u32/u16/20-byte ranges), strictly name-sorted, writing and re-parsing
reproduces the index exactly; moreover each record is padded to a
multiple of 8 bytes with at least one NUL, with a full extra 8 bytes
when `62 + name length` is already aligned. -/
theorem c4_index_round_trip (idx : List IndexEntry)
    (hwf : ∀ e ∈ idx, wfEntry e)
    (_hsorted : strictlySorted idx = true)
    (hcount : idx.length < 2 ^ 32) :
    index_parse (write_to_file idx) = Except.ok idx ∧
      ∀ e ∈ idx, (62 + name_record_size e.name.length) % 8 = 0 ∧
        e.name.length < name_record_size e.name.length ∧
        ((62 + e.name.length) % 8 = 0 →
          name_record_size e.name.length = e.name.length + 8) := by
  refine ⟨index_write_parse idx hwf hcount, ?_⟩
  intro e _
  unfold name_record_size
  have := Nat.mod_lt (62 + e.name.length) (y := 8) (by omega)
  omega

/-- C4 (witness): the round trip at the test fixture of the repository. -/
theorem c4_index_round_trip_witness :
    index_parse (write_to_file testIndex) = Except.ok testIndex ∧
      ∀ e ∈ testIndex, (62 + name_record_size e.name.length) % 8 = 0 ∧
        e.name.length < name_record_size e.name.length ∧
        ((62 + e.name.length) % 8 = 0 →
          name_record_size e.name.length = e.name.length + 8) :=
  c4_index_round_trip testIndex (by decide) (by decide) (by decide)

/-- All-zero metadata with the given flags, for small test entries. -/
def c7Meta (fl : Nat) : IndexMeta :=
  { ctime := 0, ctime_ns := 0, mtime := 0, mtime_ns := 0, dev := 0, ino := 0
    mode := 0, uid := 0, gid := 0, size := 0, id := zeroId, flags := fl }

/-- A two-entry index whose names `b`, `a` are strictly descending. -/
def unsortedIndex : List IndexEntry := [⟨[98], c7Meta 1⟩, ⟨[97], c7Meta 1⟩]

/-- C7 (counterexample): a byte stream with correct magic and version 2
whose two entries are out of order (`b` before `a`) is accepted by
`parse`, which returns the entries in file order — the claimed decode
error is never raised, as `parse` performs no ordering or duplicate
check. -/
theorem c7_counterexample :
    index_parse (write_to_file unsortedIndex) = Except.ok unsortedIndex ∧
      strictlySorted unsortedIndex = false :=
  ⟨index_write_parse unsortedIndex (by decide) (by decide), by decide⟩

/-- C7 (amended): index parsing does not enforce the ordering invariant:
an otherwise well-formed stream whose entries are not strictly sorted
(in particular, duplicated) still parses successfully, returning the
entries in file order. -/
theorem c7_parse_ignores_order (idx : List IndexEntry)
    (hwf : ∀ e ∈ idx, wfEntry e) (hcount : idx.length < 2 ^ 32)
    (_hunsorted : strictlySorted idx = false) :
    index_parse (write_to_file idx) = Except.ok idx :=
  index_write_parse idx hwf hcount

/-- C7 (witness): the amended theorem at the unsorted two-entry index. -/
theorem c7_parse_ignores_order_witness :
    index_parse (write_to_file unsortedIndex) = Except.ok unsortedIndex :=
  c7_parse_ignores_order unsortedIndex (by decide) (by decide) (by decide)

/-! ## src/rev.rs : the reference resolver

The filesystem visible under `.git/` is modelled as finite association
lists keyed by `.git`-relative forward-slash paths: regular files with
their text content, directories, symlinks with their link target (taken
to be a `.git`-relative path, as the resolver expects), plus the
`objects/<xx>/` fan-out directories with their entry file names.  File
contents are Lean `String`s, so the `String::from_utf8` step of
`parse_id_from` always succeeds, as it does in Rust for text written by
this program. -/

structure GitFS where
  files : List (String × String)
  dirs : List String
  symlinks : List (String × String)
  objects : List (String × List String)

/-- Rust `Path::exists` (the existence probes of rev.rs). -/
def GitFS.pathExists (fs : GitFS) (p : String) : Bool :=
  (fs.files.lookup p).isSome || fs.dirs.contains p || (fs.symlinks.lookup p).isSome

/-- Rust `fs::write`: record the new file content (newest entry shadows). -/
def GitFS.setFile (fs : GitFS) (p c : String) : GitFS :=
  { fs with files := (p, c) :: fs.files }

/-- Rust `char::is_whitespace`, restricted to the ASCII whitespace that
can occur in ref files. -/
def isWS (c : Char) : Bool := c = ' ' || c = '\t' || c = '\n' || c = '\r'

/-- Rust `str::trim_end`. -/
def strTrimEnd (s : String) : String := ⟨(s.data.reverse.dropWhile isWS).reverse⟩

/-- Rust `str::trim`. -/
def strTrim (s : String) : String :=
  ⟨((s.data.dropWhile isWS).reverse.dropWhile isWS).reverse⟩

/-- Rust `&s[..n]` on ASCII strings (all call sites are hex-guarded). -/
def strTake (s : String) (n : Nat) : String := ⟨s.data.take n⟩

/-- Rust `&s[n..]` on ASCII strings. -/
def strDrop (s : String) (n : Nat) : String := ⟨s.data.drop n⟩

/-- Rust `str::starts_with` (char-wise; equals byte-wise on UTF-8). -/
def strStartsWithB (s p : String) : Bool := s.data.take p.data.length == p.data

/-- Rust `Id::from` applied to a `&str` (its UTF-8 bytes). -/
def Id.fromStr (s : String) : Option Id := Id.fromHex (utf8Encode s.data)

/-- Rust `read.strip_prefix("ref:")`. -/
def stripRefColon (s : String) : Option String :=
  match s.data with
  | 'r' :: 'e' :: 'f' :: ':' :: rest => some ⟨rest⟩
  | _ => none

/-- The pooled error type: src/rev.rs `RevError` and
`FollowSymlinkError` plus the io and panic outcomes, which the source
mixes under `anyhow::Result`. -/
inductive RevError where
  | ambiguous (rev : String)
  | dangling (rev : String)
  | invalid (name : String)
  | badIdFile (name : String)
  | ioErr
  | depthExceeded (p : String)
  | invalidSymlinkRef (p : String)
  | panicAssert
deriving DecidableEq, Repr

/-- src/rev.rs `RevParseResult`. -/
inductive RevParseResult where
  | symref (target : String)
  | id (i : Id)

/-- src/rev.rs `parse_id_from`: steamrolls all OS errors to `None`;
a `ref:`-led file is a symref (target trimmed), anything else must
hex-decode (after `trim_end`) to an Id. -/
def parse_id_from (fs : GitFS) (path : String) : Option RevParseResult :=
  match fs.files.lookup path with
  | none => none
  | some read =>
    match stripRefColon read with
    | some target => some (.symref (strTrim target))
    | none => (Id.fromStr (strTrimEnd read)).map .id

/-- src/rev.rs `is_valid_sha1`: 4 to 20 characters, all ASCII hex. -/
def isAsciiHexDigit (c : Char) : Bool :=
  ('0' ≤ c && c ≤ '9') || ('a' ≤ c && c ≤ 'f') || ('A' ≤ c && c ≤ 'F')

/-- src/rev.rs `is_valid_sha1`. -/
def is_valid_sha1 (s : String) : Bool :=
  (4 ≤ s.length && s.length ≤ 20) && s.data.all isAsciiHexDigit

/-- A character rejected inside a refname component (§4.6 list). -/
def badRefChar (c : Char) : Bool :=
  c.toNat < 0o40 || c.toNat = 0o177 || (" ~^:?*[\\".data.contains c)

/-- Rust `str::contains` for a fixed pattern (substring search). -/
def containsSub (p : List Char) : List Char → Bool
  | [] => p == []
  | c :: rest => (c :: rest).take p.length == p || containsSub p rest

/-- One component of the src/rev.rs `is_valid_refname` loop. -/
def refPartOk (part : String) : Bool :=
  !(part == "")
    && !(['.'].isPrefixOf part.data || ['.'].isSuffixOf part.data
          || ".lock".data.isSuffixOf part.data)
    && !(containsSub "..".data part.data || containsSub "@\x7b".data part.data)
    && part.data.all (fun c => !badRefChar c)

/-- src/rev.rs `is_valid_refname`. -/
def is_valid_refname (name : String) (allow_onelevel : Bool) : Bool :=
  if name = "@" then false
  else
    let parts := splitSlash name
    if parts.all refPartOk then
      if parts.length = 1 && !allow_onelevel then false else true
    else false

/-- The loop of src/rev.rs `follow_symlink_refs`: fuel is the remaining
iterations of `for depth in 0..16`; one-level names are allowed only at
depth 0; a valid non-existent or non-symlink location ends the chase. -/
def followAux (fs : GitFS) (orig : String) : Nat → Nat → String → Except RevError String
  | 0, _, _ => .error (.depthExceeded orig)
  | fuel + 1, depth, path =>
    if !is_valid_refname path (decide (depth < 1)) then .error (.invalidSymlinkRef path)
    else if !fs.pathExists path then .ok path
    else
      match fs.symlinks.lookup path with
      | none => .ok path
      | some target => followAux fs orig fuel (depth + 1) target

/-- src/rev.rs `follow_symlink_refs` (MAX_DEPTH = 16). -/
def follow_symlink_refs (p : String) (fs : GitFS) : Except RevError String :=
  followAux fs p 16 0 p

/-- The `try_paths` candidates of src/rev.rs `find_refname`. -/
def findRefnamePaths : List String := ["", "refs", "refs/tags", "refs/heads", "refs/remotes"]

/-- Path join `dotgit.join(path); p.push(rev)` for the `find_refname` candidates. -/
def joinPath (a b : String) : String := if a = "" then b else a ++ "/" ++ b

/-- The `return match … None => continue` loop of `find_refname`: the
first location whose file parses decides the outcome. -/
def firstParsed (fs : GitFS) (rev : String) : List String → Option RevParseResult
  | [] => none
  | p :: rest =>
    match parse_id_from fs (joinPath p rev) with
    | some r => some r
    | none => firstParsed fs rev rest

/-- src/rev.rs `find_refname`.  The source recursion on a symref target
is unbounded (it loops forever on a self-referential `HEAD`); the fuel
only cuts such cycles and any fuel at least the chase depth gives the
source behavior.  A symref found under any candidate path is followed
only when the lookup was literally `HEAD`, otherwise `None`. -/
def find_refname : Nat → GitFS → String → Option Id
  | 0, _, _ => none
  | fuel + 1, fs, rev =>
    match firstParsed fs rev findRefnamePaths with
    | some (.id i) => some i
    | some (.symref sr) => if rev = "HEAD" then find_refname fuel fs sr else none
    | none =>
      match parse_id_from fs ("refs/remotes/" ++ rev ++ "/HEAD") with
      | some (.id i) => some i
      | _ => none

/-- src/objects.rs `Repo::head`: read `HEAD`, trim, try to decode an Id;
a symref (or any non-Id content) is simply `None`. -/
def Repo.head (fs : GitFS) : Except RevError (Option Id) :=
  match fs.files.lookup "HEAD" with
  | none => .error .ioErr
  | some c => .ok (Id.fromStr (strTrim c))

/-- The candidate scan of src/rev.rs `parse` over the entries of
`objects/<rev[0..2]>/`: note the source compares `name.starts_with(rev)`
against the **full** rev, and reconstructs `rev[0..2] + name`. -/
def scanObjects (rev : String) : List String → Option String → Except RevError (Option String)
  | [], cand => .ok cand
  | name :: rest, cand =>
    if strStartsWithB name rev then
      match cand with
      | some _ => .error (.ambiguous rev)
      | none => scanObjects rev rest (some (strTake rev 2 ++ name))
    else scanObjects rev rest cand

/-- The tail of src/rev.rs `parse` after the SHA-1 prefix scan:
`find_refname`, then the `@` = HEAD special case, else `Dangling`.  On
the `@` branch the source returns `repo.head()` (a `Result<Option<Id>>`
where `Result<Id>` is needed, a line that does not typecheck as
shipped); we model it as yielding the head Id when present and
`Dangling` otherwise. -/
def rev_parse_fallback (rev : String) (fs : GitFS) : Except RevError Id :=
  match find_refname 32 fs rev with
  | some i => .ok i
  | none =>
    if rev = "@" then
      match Repo.head fs with
      | .error e => .error e
      | .ok (some i) => .ok i
      | .ok none => .error (.dangling rev)
    else .error (.dangling rev)

/-- src/rev.rs `parse` (rev_parse): the SHA-1 prefix scan (only for
4–20 hex character inputs and when `objects/<rev[0..2]>/` exists),
falling through to `rev_parse_fallback`. -/
def rev_parse (rev : String) (fs : GitFS) : Except RevError Id :=
  if is_valid_sha1 rev then
    match fs.objects.lookup (strTake rev 2) with
    | none => rev_parse_fallback rev fs
    | some entries =>
      match scanObjects rev entries none with
      | .error e => .error e
      | .ok (some full) =>
        match Id.fromStr full with
        | some i => .ok i
        | none => .error (.badIdFile full)
      | .ok none => rev_parse_fallback rev fs
  else rev_parse_fallback rev fs

/-- One lowercase hex digit. -/
def hexDigitChar (n : Nat) : Char := if n < 10 then Char.ofNat (48 + n) else Char.ofNat (87 + n)

/-- Display form of an Id: two lowercase hex digits per byte. -/
def Id.hex (i : Id) : String :=
  ⟨(i.bytes.map (fun b => [hexDigitChar (b / 16), hexDigitChar (b % 16)])).flatten⟩

/-- Rust `PathBuf::push`: an absolute component replaces the whole path
(which is what the `"/HEAD"` suffix of the last candidate does); a
trailing separator on the base is not doubled. -/
def pathPush (a b : String) : String :=
  if ['/'].isPrefixOf b.data then b
  else if a = "" then b
  else if a.data.getLast? = some '/' then a ++ b
  else a ++ "/" ++ b

/-- The `try_paths` table of src/rev.rs `update_ref`. -/
def updateRefTryPaths : List (String × String) :=
  [("", ""), ("refs/", ""), ("refs/tags/", ""), ("refs/heads/", ""),
    ("refs/remotes/", ""), ("refs/remotes/", "/HEAD")]

/-- The candidate-location loop of src/rev.rs `update_ref`: at the first
existing location, follow symlink refs and overwrite the landing path;
if none exists, create the ref at `.git/<target>`. -/
def updateRefSearch (fs : GitFS) (target : String) (newId : Id) :
    List (String × String) → Except RevError GitFS
  | [] => .ok (fs.setFile target newId.hex)
  | (bef, aft) :: rest =>
    let relative := if aft ≠ "" then pathPush (pathPush bef target) aft else pathPush bef target
    if fs.pathExists relative then
      match follow_symlink_refs relative fs with
      | .error e => .error e
      | .ok written => .ok (fs.setFile written newId.hex)
    else updateRefSearch fs target newId rest

/-- src/rev.rs `update_ref`.  For the target `HEAD`: a missing HEAD is a
propagated io error; an OS-symlinked HEAD is passed as an *absolute*
path into `follow_symlink_refs`, whose entry assertion rejects absolute
paths — a panic, modelled as `panicAssert`; a symref-by-content
redirects the write to its target.  The (possibly redirected) target is
then validated with one-level names permitted, and only afterwards are
the candidate locations searched. -/
def update_ref (targetRef : String) (newId : Id) (fs : GitFS) : Except RevError GitFS :=
  match (if targetRef = "HEAD" then
          (if !fs.pathExists "HEAD" then Except.error RevError.ioErr
           else if (fs.symlinks.lookup "HEAD").isSome then Except.error RevError.panicAssert
           else
             match parse_id_from fs "HEAD" with
             | some (.id _) => Except.ok targetRef
             | some (.symref sr) => Except.ok sr
             | none => Except.ok targetRef)
         else Except.ok targetRef) with
  | .error e => .error e
  | .ok target =>
    if !is_valid_refname target true then .error (.invalid target)
    else updateRefSearch fs target newId updateRefTryPaths

deriving instance DecidableEq for Except

/-- A repository directory with no files at all. -/
def emptyFS : GitFS := ⟨[], [], [], []⟩

/-- C6 (amended): for every refname the §4.6 validator rejects (with
one-level names permitted, the mode `update_ref` uses), `update_ref`
fails with the `RefNameInvalid` error before touching the filesystem. -/
theorem c6_update_ref_invalid (n : String) (i : Id) (fs : GitFS)
    (hinv : is_valid_refname n true = false) :
    update_ref n i fs = Except.error (RevError.invalid n) := by
  have hne : n ≠ "HEAD" := by
    intro h
    rw [h] at hinv
    exact absurd hinv (by decide)
  unfold update_ref
  rw [if_neg hne]
  simp [hinv]

/-- C6 (witness): the amended theorem at the invalid name `a..b`. -/
theorem c6_update_ref_invalid_witness :
    update_ref "a..b" zeroId emptyFS = Except.error (RevError.invalid "a..b") :=
  c6_update_ref_invalid "a..b" zeroId emptyFS (by decide)

/-- C6 (counterexample): `rev_parse` performs no refname validation at
all (the validator is written but never called from `parse`): for the
invalid name `a..b` in an empty repository it fails with `Dangling`
(`RefNotFound`), not with `RefNameInvalid` as the claim requires. -/
theorem c6_counterexample :
    rev_parse "a..b" emptyFS = Except.error (RevError.dangling "a..b") ∧
      is_valid_refname "a..b" true = false := by
  decide

/-- The full 40-zero hex id. -/
def fullZeroHex : String := "0000000000000000000000000000000000000000"

/-- A repository whose object database holds exactly the zero-Id object:
the fan-out directory `objects/00` contains the file named by the
remaining 38 hex characters. -/
def c2FS : GitFS :=
  ⟨[], ["objects/00"], [], [("00", ["00000000000000000000000000000000000000"])]⟩

/-- C2: the object with Id `0000…00` is present in the database
(`objects/00/00…0`, 38-character remainder), yet `rev_parse` of its full
40-character hex form fails with `Dangling`: `is_valid_sha1` only
accepts 4 to 20 characters, so the object-database lookup is skipped and
the 40-hex string then matches no ref. -/
theorem c2_full_id_not_found :
    Id.fromStr fullZeroHex = some zeroId ∧
      c2FS.objects = [(strTake fullZeroHex 2, [strDrop fullZeroHex 2])] ∧
      is_valid_sha1 fullZeroHex = false ∧
      rev_parse fullZeroHex c2FS = Except.error (RevError.dangling fullZeroHex) := by
  decide

/-! ### `Repo::head` on symbolic references (C10) -/

theorem idFromHex_cons_nonhex (b : Nat) (rest : List Nat) (h : isHexByte b = false) :
    Id.fromHex (b :: rest) = none := by
  have hd : decodeHexDigit b = none := by
    unfold isHexByte at h
    cases hdd : decodeHexDigit b with
    | none => rfl
    | some v => rw [hdd] at h; simp at h
  cases rest with
  | nil => rfl
  | cons b2 rest' =>
    unfold Id.fromHex parse_hex
    simp [hd, bind]

theorem utf8Encode_cons (c : Char) (cs : List Char) :
    utf8Encode (c :: cs) = charUtf8 c ++ utf8Encode cs := by
  simp [utf8Encode]

theorem strTrim_cons_nonws (a : Char) (t : List Char) (ha : isWS a = false) :
    ∃ t', (strTrim ⟨a :: t⟩).data = a :: t' := by
  unfold strTrim
  simp only [List.dropWhile_cons, ha, Bool.false_eq_true, if_false, List.reverse_cons,
    List.dropWhile_append]
  by_cases hw : (t.reverse.dropWhile isWS).isEmpty
  · simp [hw, List.dropWhile_cons, ha]
  · simp [hw]

/-- C10 (amended): when the HEAD content is a symref (begins with `ref:`),
`head()` succeeds with `None` — it does not resolve the symref and does
not error; and whenever `head()` returns `Some`, the UTF-8 bytes of the
trimmed HEAD content are 40 **or 41** long with the first 40 being hex
digits (the 41-byte case, accepted through the `Id::from` quirk of C3,
is why "only for a literal 40-hex id" is not exactly true). -/
theorem c10_head_symref_none (fs : GitFS) (c : String)
    (hread : fs.files.lookup "HEAD" = some c) :
    ((stripRefColon c).isSome = true → Repo.head fs = Except.ok none) ∧
      (∀ i : Id, Repo.head fs = Except.ok (some i) →
        ((utf8Encode (strTrim c).data).length = 40 ∨
            (utf8Encode (strTrim c).data).length = 41) ∧
          ((utf8Encode (strTrim c).data).take 40).all isHexByte = true) := by
  constructor
  · intro hsym
    unfold Repo.head
    rw [hread]
    obtain ⟨rest, hdata⟩ : ∃ rest, c.data = 'r' :: 'e' :: 'f' :: ':' :: rest := by
      unfold stripRefColon at hsym
      split at hsym
      · exact ⟨_, by assumption⟩
      · simp at hsym
    have hc : c = ⟨'r' :: 'e' :: 'f' :: ':' :: rest⟩ := by
      cases c; simp_all
    obtain ⟨t', ht'⟩ := strTrim_cons_nonws 'r' ('e' :: 'f' :: ':' :: rest) (by decide)
    have hnone : Id.fromStr (strTrim c) = none := by
      unfold Id.fromStr
      rw [hc, ht', utf8Encode_cons]
      exact idFromHex_cons_nonhex 114 _ (by decide)
    show Except.ok (Id.fromStr (strTrim c)) = Except.ok none
    rw [hnone]
  · intro i hi
    unfold Repo.head at hi
    rw [hread] at hi
    have hsome : (Id.fromStr (strTrim c)).isSome = true := by
      simp only [Except.ok.injEq] at hi
      rw [hi]
      rfl
    exact (idFromHex_accepts_40_41 _).mp hsome

/-- HEAD as written by `Repo::init`. -/
def initHeadFS : GitFS := ⟨[("HEAD", "ref: refs/heads/master")], [], [], []⟩

/-- C10 (witness): the theorem at the repository `init` creates. -/
theorem c10_head_symref_none_witness :
    ((stripRefColon "ref: refs/heads/master").isSome = true →
        Repo.head initHeadFS = Except.ok none) ∧
      (∀ i : Id, Repo.head initHeadFS = Except.ok (some i) →
        ((utf8Encode (strTrim "ref: refs/heads/master").data).length = 40 ∨
            (utf8Encode (strTrim "ref: refs/heads/master").data).length = 41) ∧
          ((utf8Encode (strTrim "ref: refs/heads/master").data).take 40).all
            isHexByte = true) :=
  c10_head_symref_none initHeadFS "ref: refs/heads/master" (by decide)

/-- A HEAD holding 41 ASCII '0' characters. -/
def head41FS : GitFS := ⟨[("HEAD", ⟨List.replicate 41 '0'⟩)], [], [], []⟩

/-- C10 (counterexample): a HEAD containing 41 zero characters — not a
literal 40-hex Id — still makes `head()` return `Some` (the zero Id),
because `Id::from` silently drops the 41st character. -/
theorem c10_counterexample :
    Repo.head head41FS = Except.ok (some zeroId) ∧
      (strTrim ⟨List.replicate 41 '0'⟩).data.length = 41 := by
  decide

end Rgit
